import Mathlib

/-!
Shallow embedding of `scripts/import-legacy-problems.py`: a one-shot ETL
script that reads two spreadsheet catalogs ("PE" and "IB"), resolves
free-text expert names against a roster, and upserts problem records into
a relational table keyed on `(problem_id, environment)`.

Python cells are modelled by `Value` (strings, integers, booleans and the
pandas missing-value sentinel `nan`); a spreadsheet row is a partial map
from column names to cells (`none` = the column is absent from the sheet).
Raising Python code is modelled with `Except String`; the per-row
`try/except` of the importers is the `Outcome` type.  The database is a
function from `(problem_id, environment)` keys to optional stored records,
and the SQL `INSERT ... ON CONFLICT ... DO UPDATE` is `upsert`.
-/

deriving instance DecidableEq for Except

namespace LegacyImport

/-- Lowercase one ASCII character, as Python `str.lower` does per character. -/
def lowerChar (c : Char) : Char :=
  if 65 ≤ c.toNat ∧ c.toNat ≤ 90 then Char.ofNat (c.toNat + 32) else c

/-- Python `s.lower()`. -/
def lowerStr (s : String) : String := String.mk (s.data.map lowerChar)

/-- Python `s.strip()`: drop leading and trailing whitespace. -/
def trimStr (s : String) : String :=
  String.mk (((s.data.dropWhile Char.isWhitespace).reverse.dropWhile Char.isWhitespace).reverse)

/-- Decimal digit character of `n % 10`. -/
def digitChar (n : Nat) : Char := Char.ofNat (48 + n % 10)

/-- Decimal digits of a natural number, most significant first, driven by
a fuel argument so that it evaluates by structural recursion. -/
def natDigitsAux : Nat → Nat → List Char
  | 0, _ => []
  | fuel + 1, n => if n < 10 then [digitChar n] else natDigitsAux fuel (n / 10) ++ [digitChar (n % 10)]

/-- Python `str(n)` for an integer. -/
def intToStr (n : Int) : String :=
  match n with
  | .ofNat m => String.mk (natDigitsAux (m + 1) m)
  | .negSucc m => String.mk ('-' :: natDigitsAux (m + 2) (m + 1))

/-- Numeric value of a decimal digit character, if it is one. -/
def digitVal (c : Char) : Option Nat :=
  if 48 ≤ c.toNat ∧ c.toNat ≤ 57 then some (c.toNat - 48) else none

/-- Parse a non-empty all-digit character list as a natural number. -/
def natOfDigits : List Char → Option Nat
  | [] => none
  | l => l.foldl (fun acc c => match acc, digitVal c with
      | some a, some d => some (a * 10 + d)
      | _, _ => none) (some 0)

/-- Python `int(s)` on a string: optional sign followed by decimal digits,
`none` where Python raises `ValueError`. -/
def parseIntStr (s : String) : Option Int :=
  match s.data with
  | '-' :: rest => (natOfDigits rest).map (fun n => -(n : Int))
  | '+' :: rest => (natOfDigits rest).map (fun n => (n : Int))
  | l => (natOfDigits l).map (fun n => (n : Int))

/-- A spreadsheet cell value as seen by the Python script: a string, an
integer, a boolean, or the pandas missing-value sentinel `NaN`. -/
inductive Value where
  | vstr (s : String)
  | vint (n : Int)
  | vbool (b : Bool)
  | nan
deriving DecidableEq

/-- Python `str(v)` on a cell value. -/
def pyStr : Value → String
  | .vstr s => s
  | .vint n => intToStr n
  | .vbool true => "True"
  | .vbool false => "False"
  | .nan => "nan"

/-- Python falsiness (`not v`) of a cell value; note `bool(nan)` is `True`. -/
def pyFalsy : Value → Bool
  | .vstr s => s = ""
  | .vint n => n = 0
  | .vbool b => !b
  | .nan => false

/-- `pd.isna` on an optional cell (`none` models Python `None`). -/
def pd_isna : Option Value → Bool
  | none => true
  | some .nan => true
  | some _ => false

/-- `pd.notna` on a present cell value. -/
def pd_notnaV (v : Value) : Bool :=
  match v with
  | .nan => false
  | _ => true

/-- Python `int(v)`: integers pass through, numeric strings are parsed,
booleans become 0/1, and anything else raises `ValueError`. -/
def pyInt : Value → Except String Int
  | .vint n => .ok n
  | .vstr s =>
    match parseIntStr s with
    | some n => .ok n
    | none => .error ("ValueError: invalid literal for int() with base 10: " ++ s)
  | .vbool b => .ok (if b then 1 else 0)
  | .nan => .error "ValueError: cannot convert float NaN to integer"

/-- Python `bool(v)` on a cell value. -/
def pyBool : Value → Bool
  | .vstr s => s ≠ ""
  | .vint n => n ≠ 0
  | .vbool b => b
  | .nan => true

/-- A spreadsheet row: column name to cell; `none` means the sheet has no
such column (so `row[c]` raises `KeyError` while `row.get(c)` gives `None`). -/
abbrev Row := String → Option Value

/-- Build a row from an association list of columns. -/
def Row.ofList (l : List (String × Value)) : Row := fun c => l.lookup c

/-- Python `row[c]` (bracket indexing): raises `KeyError` when the column
is absent. -/
def rowIdx (row : Row) (c : String) : Except String Value :=
  match row c with
  | some v => .ok v
  | none => .error ("KeyError: " ++ c)

/-- First maximal run of non-whitespace characters, skipping leading
whitespace: the `[0]` of Python `str.split()` on a character list. -/
def firstTokChars : List Char → Option (List Char)
  | [] => none
  | c :: cs =>
    if c.isWhitespace then firstTokChars cs
    else some (c :: cs.takeWhile (fun d => !d.isWhitespace))

/-- Python `s.split()[0]` as an option: the first whitespace-delimited
token of `s`, or `none` when `s.split()` is empty (Python raises there). -/
def firstToken (s : String) : Option String :=
  (firstTokChars s.data).map (fun l => String.mk l)

/-- Expert-name lookup table: insertion-ordered association list, as a
Python `dict` from normalized name strings to expert ids. -/
abbrev ExpertMap := List (String × Nat)

/-- Python `k in d` for an association-list dict. -/
def hasKey (m : List (String × Nat)) (k : String) : Bool :=
  (m.lookup k).isSome

/-- Python `d[k] = v` on an insertion-ordered dict: replace the first
binding of `k` in place, or append a fresh binding at the end. -/
def dictInsert (k : String) (v : Nat) : List (String × Nat) → List (String × Nat)
  | [] => [(k, v)]
  | (k', v') :: m => if k' = k then (k, v) :: m else (k', v') :: dictInsert k v m

/-- Loop body of `get_expert_id_map`: for each `(id, name)` register the
lowercased full name (overwriting), then the lowercased first token only
if that key is not already present; `name_lower.split()[0]` raises
`IndexError` on an all-whitespace name. -/
def buildMap : List (Nat × String) → ExpertMap → Except String ExpertMap
  | [], m => .ok m
  | (i, n) :: rest, m =>
    let nl := lowerStr n
    let m1 := dictInsert nl i m
    match firstToken nl with
    | none => .error "IndexError: list index out of range"
    | some fn => buildMap rest (if hasKey m1 fn then m1 else dictInsert fn i m1)

/-- `get_expert_id_map`: build the flexible name → id mapping from the
roster of `(id, name)` pairs read from the `experts` table. -/
def get_expert_id_map (experts : List (Nat × String)) : Except String ExpertMap :=
  buildMap experts []

/-- The static alias table of the script: short informal name to full
canonical lowercase name. -/
def aliases : List (String × String) :=
  [("rob", "robert alward"),
   ("jerry", "jerry song"),
   ("alex", "alex ishin"),
   ("phil", "philip garbarini"),
   ("zach", "zach barry"),
   ("ryan", "ryan diebner"),
   ("jackson", "jackson ozello"),
   ("arielle", "arielle flynn"),
   ("josh", "josh miller"),
   ("sneh", "sneh kumar"),
   ("kavi", "kavi munjal"),
   ("lindsay", "lindsay saldebar"),
   ("frank", "frank mork"),
   ("prem", "prem patel"),
   ("tyler", "tyler patterson"),
   ("haylee", "haylee glenn"),
   ("jack", "jack barnett"),
   ("minesh", "minesh patel"),
   ("jason", "jason dotzel"),
   ("wyatt", "wyatt morgan"),
   ("will", "will chen"),
   ("justin", "justin hwang")]

/-- `resolve_expert_name`: `None`/`NaN`/falsy values resolve to no id;
otherwise normalize (strip + lowercase), try a direct key match, then the
first whitespace-delimited token (`split()[0]` raises `IndexError` when
the normalized string has no token), then the alias table. -/
def resolve_expert_name (name : Option Value) (em : ExpertMap) : Except String (Option Nat) :=
  if pd_isna name then .ok none
  else
    match name with
    | none => .ok none
    | some v =>
      if pyFalsy v then .ok none
      else
        let name_str := lowerStr (trimStr (pyStr v))
        match em.lookup name_str with
        | some i => .ok (some i)
        | none =>
          match firstToken name_str with
          | none => .error "IndexError: list index out of range"
          | some fn =>
            match em.lookup fn with
            | some i => .ok (some i)
            | none =>
              match aliases.lookup name_str with
              | some full =>
                match em.lookup full with
                | some i => .ok (some i)
                | none => .ok none
              | none => .ok none

/-- Resolution procedure exactly as the specification words it, in five
ordered steps: absent/empty gives no id; else the trimmed lowercased value
as a full key; else its first whitespace-delimited token as a key; else
the alias target looked up in the table; else no id.  Used to compare the
specified order against `resolve_expert_name`. -/
def specResolve (name : Option Value) (em : ExpertMap) : Option Nat :=
  if pd_isna name then none
  else
    match name with
    | none => none
    | some v =>
      if pyFalsy v then none
      else
        let s := lowerStr (trimStr (pyStr v))
        match em.lookup s with
        | some i => some i
        | none =>
          match (firstToken s).bind (fun fn => em.lookup fn) with
          | some i => some i
          | none =>
            match aliases.lookup s with
            | some full =>
              match em.lookup full with
              | some i => some i
              | none => none
            | none => none

/-- The values one importer row contributes to the upsert statement.  The
`explainer_video` field is doubly optional: `none` means the importer does
not map that column at all (the IB importer), while `some v` is the PE
importer's computed value `v`. -/
structure Payload where
  problem_id : String
  environment : String
  spec_number : Option Int
  status : Option String
  sme_id : Option Nat
  reviewer_id : Option Nat
  final_reviewer_id : Option Nat
  engineer_id : Option Nat
  week : Option Int
  separate_environment_init : Bool
  problem_doc : Option String
  ground_truth : Option String
  spec_folder : Option String
  spec_doc : Option String
  spec_data_folder : Option String
  docker_container : Option String
  pr_link : Option String
  blocker_reason : Option String
  sonnet_pass_rate : Option String
  opus_pass_rate : Option String
  explainer_video : Option (Option String)
deriving DecidableEq

/-- A persisted row of the `problems` table. -/
structure StoredRecord where
  problem_id : String
  environment : String
  spec_number : Option Int
  status : Option String
  sme_id : Option Nat
  reviewer_id : Option Nat
  final_reviewer_id : Option Nat
  engineer_id : Option Nat
  week : Option Int
  separate_environment_init : Bool
  problem_doc : Option String
  ground_truth : Option String
  spec_folder : Option String
  spec_doc : Option String
  spec_data_folder : Option String
  docker_container : Option String
  pr_link : Option String
  blocker_reason : Option String
  sonnet_pass_rate : Option String
  opus_pass_rate : Option String
  explainer_video : Option String
  source : String
  created_at : Nat
  updated_at : Option Nat
deriving DecidableEq

/-- The `problems` table, keyed by its `(problem_id, environment)`
uniqueness constraint. -/
abbrev DB := String × String → Option StoredRecord

/-- Record written at the payload's key by the upsert: on insert the
creation time is stamped and the update time left at its default; on
conflict every mapped column is overwritten, the creation time kept, and
the update time advanced.  An unmapped `explainer_video` (IB) keeps the
pre-existing value on conflict and defaults to null on insert.  `source`
is forced to the migration literal on both paths. -/
def applyRec (p : Payload) (t : Nat) (old : Option StoredRecord) : StoredRecord :=
  { problem_id := p.problem_id
    environment := p.environment
    spec_number := p.spec_number
    status := p.status
    sme_id := p.sme_id
    reviewer_id := p.reviewer_id
    final_reviewer_id := p.final_reviewer_id
    engineer_id := p.engineer_id
    week := p.week
    separate_environment_init := p.separate_environment_init
    problem_doc := p.problem_doc
    ground_truth := p.ground_truth
    spec_folder := p.spec_folder
    spec_doc := p.spec_doc
    spec_data_folder := p.spec_data_folder
    docker_container := p.docker_container
    pr_link := p.pr_link
    blocker_reason := p.blocker_reason
    sonnet_pass_rate := p.sonnet_pass_rate
    opus_pass_rate := p.opus_pass_rate
    explainer_video :=
      match p.explainer_video with
      | some v => v
      | none => match old with
        | some r => r.explainer_video
        | none => none
    source := "legacy_sheets"
    created_at := match old with
      | some r => r.created_at
      | none => t
    updated_at := match old with
      | some _ => some t
      | none => none }

/-- `INSERT ... ON CONFLICT (problem_id, environment) DO UPDATE` executed
at time `t` against the table. -/
def upsert (p : Payload) (t : Nat) (db : DB) : DB :=
  fun k => if k = (p.problem_id, p.environment) then some (applyRec p t (db k)) else db k

/-- Result of the body of one iteration of an importer's per-row loop:
a silent skip (blank id), a caught exception, or a payload to upsert. -/
inductive Outcome where
  | skipBlank
  | rowError (msg : String)
  | success (p : Payload)
deriving DecidableEq

/-- Optional integer column: `int(row[c]) if pd.notna(row.get(c)) else None`. -/
def optIntField (row : Row) (c : String) : Except String (Option Int) :=
  match row c with
  | none => .ok none
  | some v => if pd_notnaV v then (pyInt v).map some else .ok none

/-- Optional text column: `str(row[c]) if pd.notna(row.get(c)) else None`. -/
def optStrField (row : Row) (c : String) : Option String :=
  match row c with
  | some v => if pd_notnaV v then some (pyStr v) else none
  | none => none

/-- Boolean column defaulting to false:
`bool(row[c]) if pd.notna(row.get(c)) else False`. -/
def boolField (row : Row) (c : String) : Bool :=
  match row c with
  | some v => if pd_notnaV v then pyBool v else false
  | none => false

/-- Raising part of the PE row mapping, in the evaluation order of the
script: the five name resolutions, then the integer coercions of the
`Spec #` and `Week` columns; every other column coercion cannot raise. -/
def peBody (em : ExpertMap) (row : Row) (pid : String) : Except String Payload :=
  match resolve_expert_name (row "SME") em with
  | .error e => .error e
  | .ok sme =>
    match resolve_expert_name (row "Reviewer 1") em with
    | .error e => .error e
    | .ok rev =>
      match resolve_expert_name (row "Reviewer 2") em with
      | .error e => .error e
      | .ok _rev2 =>
        match resolve_expert_name (row "Engineer / Submitter") em with
        | .error e => .error e
        | .ok eng =>
          match resolve_expert_name (row "Final Reviewer") em with
          | .error e => .error e
          | .ok finalRev =>
            match optIntField row "Spec #" with
            | .error e => .error e
            | .ok specNum =>
              match optIntField row "Week" with
              | .error e => .error e
              | .ok week =>
                .ok { problem_id := pid
                      environment := "PE"
                      spec_number := specNum
                      status := optStrField row "Status"
                      sme_id := sme
                      reviewer_id := rev
                      final_reviewer_id := finalRev
                      engineer_id := eng
                      week := week
                      separate_environment_init := boolField row "Separate Environment Init"
                      problem_doc := optStrField row "Problem Doc"
                      ground_truth := optStrField row "Problem Ground Truth"
                      spec_folder := optStrField row "Spec Folder"
                      spec_doc := optStrField row "Spec Doc"
                      spec_data_folder := optStrField row "Spec Data Folder"
                      docker_container := optStrField row "Docker Container"
                      pr_link := optStrField row "PR Link"
                      blocker_reason := optStrField row "Blocker Reason"
                      sonnet_pass_rate := optStrField row "Sonnet 4.5  Pass @ 10"
                      opus_pass_rate := optStrField row "Opus 4.1 Pass @ 10"
                      explainer_video := some (optStrField row "Explainer Video") }

/-- Raising part of the IB row mapping: like the PE one but the spec
column is named `Spec`, the ground truth column `Ground Truth`, and no
explainer-video column is mapped. -/
def ibBody (em : ExpertMap) (row : Row) (pid : String) : Except String Payload :=
  match resolve_expert_name (row "SME") em with
  | .error e => .error e
  | .ok sme =>
    match resolve_expert_name (row "Reviewer 1") em with
    | .error e => .error e
    | .ok rev =>
      match resolve_expert_name (row "Reviewer 2") em with
      | .error e => .error e
      | .ok _rev2 =>
        match resolve_expert_name (row "Engineer / Submitter") em with
        | .error e => .error e
        | .ok eng =>
          match resolve_expert_name (row "Final Reviewer") em with
          | .error e => .error e
          | .ok finalRev =>
            match optIntField row "Spec" with
            | .error e => .error e
            | .ok specNum =>
              match optIntField row "Week" with
              | .error e => .error e
              | .ok week =>
                .ok { problem_id := pid
                      environment := "IB"
                      spec_number := specNum
                      status := optStrField row "Status"
                      sme_id := sme
                      reviewer_id := rev
                      final_reviewer_id := finalRev
                      engineer_id := eng
                      week := week
                      separate_environment_init := boolField row "Separate Environment Init"
                      problem_doc := optStrField row "Problem Doc"
                      ground_truth := optStrField row "Ground Truth"
                      spec_folder := optStrField row "Spec Folder"
                      spec_doc := optStrField row "Spec Doc"
                      spec_data_folder := optStrField row "Spec Data Folder"
                      docker_container := optStrField row "Docker Container"
                      pr_link := optStrField row "PR Link"
                      blocker_reason := optStrField row "Blocker Reason"
                      sonnet_pass_rate := optStrField row "Sonnet 4.5  Pass @ 10"
                      opus_pass_rate := optStrField row "Opus 4.1 Pass @ 10"
                      explainer_video := none }

/-- One iteration of the PE per-row loop: `row['ID']` (raising `KeyError`
when the sheet has no such column), the blank-id silent skip, then the
raising body; any raise is the caught exception of the `try/except`. -/
def processRowPE (em : ExpertMap) (row : Row) : Outcome :=
  match rowIdx row "ID" with
  | .error e => .rowError e
  | .ok v =>
    if pd_notnaV v then
      if pyStr v = "" then .skipBlank
      else
        match peBody em row (pyStr v) with
        | .ok p => .success p
        | .error e => .rowError e
    else .skipBlank

/-- One iteration of the IB per-row loop. -/
def processRowIB (em : ExpertMap) (row : Row) : Outcome :=
  match rowIdx row "ID" with
  | .error e => .rowError e
  | .ok v =>
    if pd_notnaV v then
      if pyStr v = "" then .skipBlank
      else
        match ibBody em row (pyStr v) with
        | .ok p => .success p
        | .error e => .rowError e
    else .skipBlank

/-- Mutable state of one importer run: the table plus the `imported` and
`skipped` counters, the error list, and the current row index. -/
structure ImportState where
  db : DB
  imported : Nat
  skipped : Nat
  errors : List String
  idx : Nat

/-- Error-list entry format of the importers: `f"Row {idx}: {str(e)}"`. -/
def errEntry (idx : Nat) (msg : String) : String :=
  "Row " ++ intToStr idx ++ ": " ++ msg

/-- The per-row loop shared by both importers, parameterized by the row
processor: a success upserts and bumps `imported`; a blank id bumps
`skipped`; a caught exception appends its row index and message to the
error list and bumps `skipped`; in every case the loop continues. -/
def runImport (process : Row → Outcome) (t : Nat) : List Row → ImportState → ImportState
  | [], st => st
  | r :: rest, st =>
    match process r with
    | .skipBlank =>
      runImport process t rest { st with skipped := st.skipped + 1, idx := st.idx + 1 }
    | .rowError msg =>
      runImport process t rest
        { st with skipped := st.skipped + 1,
                  errors := st.errors ++ [errEntry st.idx msg],
                  idx := st.idx + 1 }
    | .success p =>
      runImport process t rest
        { st with db := upsert p t st.db, imported := st.imported + 1, idx := st.idx + 1 }

/-- Fresh state of an importer run over a given table. -/
def initState (db : DB) : ImportState :=
  { db := db, imported := 0, skipped := 0, errors := [], idx := 0 }

/-- `import_pe_problems`: run the PE per-row loop over the sheet rows at
time `t` (the single commit at the end does not change the state). -/
def import_pe_problems (em : ExpertMap) (rows : List Row) (db : DB) (t : Nat) : ImportState :=
  runImport (processRowPE em) t rows (initState db)

/-- `import_ib_problems`: run the IB per-row loop over the sheet rows. -/
def import_ib_problems (em : ExpertMap) (rows : List Row) (db : DB) (t : Nat) : ImportState :=
  runImport (processRowIB em) t rows (initState db)

/-- First token of a roster entry's lowercased name — the key its
first-name mapping would use. -/
def ftokOf (p : Nat × String) : Option String := firstToken (lowerStr p.2)

/-- Identifier of the earliest roster entry whose lowercased name has
first token `k`. -/
def earliestBearer (R : List (Nat × String)) (k : String) : Option Nat :=
  (R.find? (fun p => ftokOf p == some k)).map (fun p => p.1)

/-- Erase the update timestamp of a stored record: the claimed
idempotence of re-imports is equality up to this field. -/
def stripUpd (r : StoredRecord) : StoredRecord := { r with updated_at := none }

/-- Creation time the upsert leaves at a key: the pre-existing one, or
the run time on a fresh insert. -/
def createdOf (o : Option StoredRecord) (t : Nat) : Nat :=
  match o with
  | some r => r.created_at
  | none => t

/-- Explainer-video column currently stored at a key (null when vacant). -/
def explOf (o : Option StoredRecord) : Option String :=
  match o with
  | some r => r.explainer_video
  | none => none

/-- Explainer-video column after one upsert: a mapped column overwrites,
an unmapped one keeps the previous value. -/
def explStep (p : Payload) (e : Option String) : Option String :=
  match p.explainer_video with
  | some v => v
  | none => e

/-- Explainer-video column after a sequence of upserts. -/
def explFold : List Payload → Option String → Option String
  | [], e => e
  | p :: ps, e => explFold ps (explStep p e)

/-- Last element of a list, if any. -/
def lastOpt : List α → Option α
  | [] => none
  | [a] => some a
  | _ :: b :: l => lastOpt (b :: l)

/-- Evolution of the table at one key over the rows of a run: only
successful payloads addressed to that key touch it. -/
def foldAt (process : Row → Outcome) (t : Nat) (k : String × String) :
    List Row → Option StoredRecord → Option StoredRecord
  | [], o => o
  | r :: rest, o =>
    foldAt process t k rest
      (match process r with
       | .success p => if k = (p.problem_id, p.environment) then some (applyRec p t o) else o
       | _ => o)

/-- The successful payloads of a run addressed to one key, in order. -/
def hits (process : Row → Outcome) (k : String × String) (rows : List Row) : List Payload :=
  rows.filterMap (fun r =>
    match process r with
    | .success p => if k = (p.problem_id, p.environment) then some p else none
    | _ => none)

/-- Apply a sequence of payloads at one key by repeated upsert. -/
def foldPs (t : Nat) : List Payload → Option StoredRecord → Option StoredRecord
  | [], o => o
  | p :: ps, o => foldPs t ps (some (applyRec p t o))

/-- The update-stripped record a payload leaves behind, given the
creation time and explainer-video value it ends up with. -/
def mkStrip (p : Payload) (c : Nat) (e : Option String) : StoredRecord :=
  { problem_id := p.problem_id
    environment := p.environment
    spec_number := p.spec_number
    status := p.status
    sme_id := p.sme_id
    reviewer_id := p.reviewer_id
    final_reviewer_id := p.final_reviewer_id
    engineer_id := p.engineer_id
    week := p.week
    separate_environment_init := p.separate_environment_init
    problem_doc := p.problem_doc
    ground_truth := p.ground_truth
    spec_folder := p.spec_folder
    spec_doc := p.spec_doc
    spec_data_folder := p.spec_data_folder
    docker_container := p.docker_container
    pr_link := p.pr_link
    blocker_reason := p.blocker_reason
    sonnet_pass_rate := p.sonnet_pass_rate
    opus_pass_rate := p.opus_pass_rate
    explainer_video := e
    source := "legacy_sheets"
    created_at := c
    updated_at := none }

/-- Last explicitly-mapped explainer-video value in a payload sequence. -/
def lastSetExpl (ps : List Payload) : Option (Option String) :=
  lastOpt (ps.filterMap (fun p => p.explainer_video))

/-! ### Shared helper lemmas -/

theorem lastOpt_cons_isSome (a : α) (l : List α) : (lastOpt (a :: l)).isSome = true := by
  induction l generalizing a with
  | nil => rfl
  | cons b l ih => exact ih b

theorem lastOpt_cons (a : α) (l : List α) : lastOpt (a :: l) = some ((lastOpt l).getD a) := by
  cases l with
  | nil => rfl
  | cons b l' =>
    show lastOpt (b :: l') = _
    cases hq : lastOpt (b :: l') with
    | none =>
      have := lastOpt_cons_isSome b l'
      rw [hq] at this
      simp at this
    | some q => simp [hq]

theorem explFold_eq_getD (ps : List Payload) (e : Option String) :
    explFold ps e = (lastSetExpl ps).getD e := by
  induction ps generalizing e with
  | nil => rfl
  | cons p ps ih =>
    show explFold ps (explStep p e) = _
    rw [ih]
    cases hpe : p.explainer_video with
    | none => simp [lastSetExpl, List.filterMap_cons, hpe, explStep]
    | some v =>
      simp only [lastSetExpl, List.filterMap_cons, hpe, explStep, lastOpt_cons]
      cases lastOpt (List.filterMap (fun p => p.explainer_video) ps) <;> simp

theorem explFold_idem (ps : List Payload) (e : Option String) :
    explFold ps (explFold ps e) = explFold ps e := by
  simp only [explFold_eq_getD]
  cases lastSetExpl ps <;> simp

theorem stripUpd_applyRec (p : Payload) (t : Nat) (o : Option StoredRecord) :
    stripUpd (applyRec p t o) = mkStrip p (createdOf o t) (explStep p (explOf o)) := by
  cases o <;> cases hpe : p.explainer_video <;>
    simp [stripUpd, applyRec, mkStrip, createdOf, explStep, explOf, hpe]

theorem runImport_db_at (process : Row → Outcome) (t : Nat) (rows : List Row)
    (st : ImportState) (k : String × String) :
    (runImport process t rows st).db k = foldAt process t k rows (st.db k) := by
  induction rows generalizing st with
  | nil => rfl
  | cons r rest ih =>
    cases h : process r with
    | skipBlank => simp only [runImport, foldAt, h]; exact ih _
    | rowError msg => simp only [runImport, foldAt, h]; exact ih _
    | success p =>
      simp only [runImport, foldAt, h]
      rw [ih]
      simp [upsert]

theorem foldAt_eq_foldPs (process : Row → Outcome) (t : Nat) (k : String × String)
    (rows : List Row) (o : Option StoredRecord) :
    foldAt process t k rows o = foldPs t (hits process k rows) o := by
  induction rows generalizing o with
  | nil => rfl
  | cons r rest ih =>
    cases h : process r with
    | skipBlank => simp only [foldAt, hits, List.filterMap_cons, h]; exact ih _
    | rowError msg => simp only [foldAt, hits, List.filterMap_cons, h]; exact ih _
    | success p =>
      by_cases hk : k = (p.problem_id, p.environment)
      · simp only [foldAt, hits, List.filterMap_cons, h, if_pos hk]
        rw [ih]
        rfl
      · simp only [foldAt, hits, List.filterMap_cons, h, if_neg hk]
        exact ih _

theorem strip_foldPs (t : Nat) (ps : List Payload) (o : Option StoredRecord) :
    Option.map stripUpd (foldPs t ps o) =
      match lastOpt ps with
      | none => Option.map stripUpd o
      | some p => some (mkStrip p (createdOf o t) (explFold ps (explOf o))) := by
  induction ps generalizing o with
  | nil => rfl
  | cons p ps ih =>
    show Option.map stripUpd (foldPs t ps (some (applyRec p t o))) = _
    rw [ih, lastOpt_cons]
    have hb : createdOf (some (applyRec p t o)) t = createdOf o t := by
      cases o <;> simp [applyRec, createdOf]
    have hc : explOf (some (applyRec p t o)) = explStep p (explOf o) := by
      cases o <;> cases hpe : p.explainer_video <;> simp [applyRec, explOf, explStep, explOf, hpe]
    cases hq : lastOpt ps with
    | none =>
      cases ps with
      | nil => simp [stripUpd_applyRec, explFold]
      | cons b l =>
        have := lastOpt_cons_isSome b l
        rw [hq] at this
        simp at this
    | some q => simp [hb, hc, explFold]

theorem foldPs_idem (t1 t2 : Nat) (ps : List Payload) (o : Option StoredRecord) :
    Option.map stripUpd (foldPs t2 ps (foldPs t1 ps o))
      = Option.map stripUpd (foldPs t1 ps o) := by
  cases hps : ps with
  | nil => rfl
  | cons p ps' =>
    rw [← hps]
    have hne : (lastOpt ps).isSome = true := by rw [hps]; exact lastOpt_cons_isSome p ps'
    cases hq : lastOpt ps with
    | none => rw [hq] at hne; simp at hne
    | some q =>
      have h1 := strip_foldPs t1 ps o
      rw [hq] at h1
      obtain ⟨r, hr, hstrip⟩ : ∃ r, foldPs t1 ps o = some r
          ∧ stripUpd r = mkStrip q (createdOf o t1) (explFold ps (explOf o)) := by
        cases hfold : foldPs t1 ps o with
        | none => rw [hfold] at h1; simp at h1
        | some r =>
          rw [hfold] at h1
          simp only [Option.map_some] at h1
          exact ⟨r, rfl, by injection h1⟩
      have hcr : r.created_at = createdOf o t1 := by
        have : (stripUpd r).created_at = (mkStrip q (createdOf o t1)
            (explFold ps (explOf o))).created_at := by rw [hstrip]
        simpa [stripUpd, mkStrip] using this
      have hex : r.explainer_video = explFold ps (explOf o) := by
        have : (stripUpd r).explainer_video = (mkStrip q (createdOf o t1)
            (explFold ps (explOf o))).explainer_video := by rw [hstrip]
        simpa [stripUpd, mkStrip] using this
      have h2 := strip_foldPs t2 ps (foldPs t1 ps o)
      rw [hq] at h2
      rw [h2, hr]
      simp [createdOf, explOf, hcr, hex, explFold_idem, hstrip]

theorem run_counts (process : Row → Outcome) (t : Nat) (rows : List Row) (st : ImportState) :
    (runImport process t rows st).imported + (runImport process t rows st).skipped
        = st.imported + st.skipped + rows.length ∧
      (runImport process t rows st).errors.length + st.skipped
        ≤ st.errors.length + (runImport process t rows st).skipped := by
  induction rows generalizing st with
  | nil => simp [runImport]
  | cons r rest ih =>
    cases h : process r with
    | skipBlank =>
      have := ih { st with skipped := st.skipped + 1, idx := st.idx + 1 }
      simp only [runImport, h, List.length_cons] at *
      omega
    | rowError msg =>
      have := ih { st with skipped := st.skipped + 1,
                           errors := st.errors ++ [errEntry st.idx msg], idx := st.idx + 1 }
      simp only [runImport, h, List.length_append, List.length_cons, List.length_nil] at *
      omega
    | success p =>
      have := ih { st with db := upsert p t st.db, imported := st.imported + 1, idx := st.idx + 1 }
      simp only [runImport, h, List.length_cons] at *
      omega

theorem lookup_dictInsert (k : String) (v : Nat) (m : List (String × Nat)) (k' : String) :
    List.lookup k' (dictInsert k v m) = if k' = k then some v else List.lookup k' m := by
  induction m with
  | nil =>
    by_cases h : k' = k
    · simp [dictInsert, List.lookup, h]
    · simp [dictInsert, List.lookup, beq_eq_false_iff_ne.mpr h, h]
  | cons a m ih =>
    obtain ⟨k0, v0⟩ := a
    by_cases h0 : k0 = k
    · subst h0
      simp only [dictInsert, if_pos rfl]
      by_cases h : k' = k0
      · simp [List.lookup, h]
      · simp [List.lookup, beq_eq_false_iff_ne.mpr h, h]
    · simp only [dictInsert, if_neg h0]
      by_cases h : k' = k0
      · subst h
        have : k' ≠ k := fun hk => h0 (hk ▸ rfl)
        simp [List.lookup, this]
      · simp [List.lookup, beq_eq_false_iff_ne.mpr h, ih]

theorem takeWhile_self_idem (P : α → Bool) (l : List α) :
    (l.takeWhile P).takeWhile P = l.takeWhile P := by
  induction l with
  | nil => rfl
  | cons a l ih =>
    by_cases h : P a = true
    · simp [List.takeWhile_cons, h, ih]
    · simp [List.takeWhile_cons, h]

theorem firstTokChars_fix (l tk : List Char) (h : firstTokChars l = some tk) :
    firstTokChars tk = some tk := by
  induction l with
  | nil => simp [firstTokChars] at h
  | cons c cs ih =>
    by_cases hw : c.isWhitespace = true
    · rw [firstTokChars, if_pos hw] at h
      exact ih h
    · rw [firstTokChars, if_neg hw] at h
      injection h with h
      subst h
      rw [firstTokChars, if_neg hw, takeWhile_self_idem]

theorem firstToken_fix (s f : String) (h : firstToken s = some f) :
    firstToken f = some f := by
  rw [firstToken] at h
  cases htk : firstTokChars s.data with
  | none => rw [htk] at h; simp at h
  | some tk =>
    rw [htk] at h
    have h' : String.mk tk = f := by simpa using h
    rw [firstToken, ← h']
    have hd : (String.mk tk).data = tk := rfl
    rw [hd, firstTokChars_fix s.data tk htk]
    rfl

theorem find?_append (l₁ l₂ : List α) (p : α → Bool) :
    List.find? p (l₁ ++ l₂) = match List.find? p l₁ with
      | some a => some a
      | none => List.find? p l₂ := by
  induction l₁ with
  | nil => simp
  | cons a l ih =>
    cases h : p a with
    | true => simp [List.find?_cons_of_pos, h]
    | false => simp [List.find?_cons_of_neg, h, ih]

theorem buildMap_invariant (suf : List (Nat × String)) :
    ∀ (pre : List (Nat × String)) (m : ExpertMap),
    (∀ p ∈ pre ++ suf, (ftokOf p).isSome = true) →
    ((pre ++ suf).Pairwise (fun a b => lowerStr a.2 ≠ lowerStr b.2)) →
    ((pre ++ suf).Pairwise (fun a b => ftokOf a ≠ some (lowerStr b.2))) →
    (∀ p ∈ pre, List.lookup (lowerStr p.2) m = some p.1) →
    (∀ k j, earliestBearer pre k = some j → List.lookup k m = some j) →
    (∀ k, (List.lookup k m).isSome = true ↔
        ((∃ p ∈ pre, lowerStr p.2 = k) ∨ (∃ p ∈ pre, ftokOf p = some k))) →
    ∃ m', buildMap suf m = .ok m'
      ∧ (∀ p ∈ pre ++ suf, List.lookup (lowerStr p.2) m' = some p.1)
      ∧ (∀ k j, earliestBearer (pre ++ suf) k = some j → List.lookup k m' = some j) := by
  induction suf with
  | nil =>
    intro pre m _ _ _ Ia Ib _
    refine ⟨m, rfl, ?_, ?_⟩
    · simpa using Ia
    · simpa using Ib
  | cons e suf' ih =>
    intro pre m hTok hFull hShad Ia Ib Ik
    obtain ⟨i, n⟩ := e
    obtain ⟨f, hf⟩ := Option.isSome_iff_exists.mp (hTok (i, n) (by simp))
    have hfT : firstToken (lowerStr n) = some f := hf
    have hFullRel : ∀ a ∈ pre, ∀ b ∈ (i, n) :: suf', lowerStr a.2 ≠ lowerStr b.2 :=
      (List.pairwise_append.mp hFull).2.2
    have hShadRel : ∀ a ∈ pre, ∀ b ∈ (i, n) :: suf', ftokOf a ≠ some (lowerStr b.2) :=
      (List.pairwise_append.mp hShad).2.2
    have hFullPre : ∀ p ∈ pre, lowerStr p.2 ≠ lowerStr n := fun p hp =>
      hFullRel p hp (i, n) (by simp)
    have hShadPre : ∀ p ∈ pre, ftokOf p ≠ some (lowerStr n) := fun p hp =>
      hShadRel p hp (i, n) (by simp)
    have F1 : ∀ k', List.lookup k' (dictInsert (lowerStr n) i m)
        = if k' = lowerStr n then some i else List.lookup k' m := fun k' =>
      lookup_dictInsert _ _ _ _
    have hTok' : ∀ p ∈ (pre ++ [(i, n)]) ++ suf', (ftokOf p).isSome = true := by
      simpa [List.append_assoc] using hTok
    have hFull' : ((pre ++ [(i, n)]) ++ suf').Pairwise
        (fun a b => lowerStr a.2 ≠ lowerStr b.2) := by
      simpa [List.append_assoc] using hFull
    have hShad' : ((pre ++ [(i, n)]) ++ suf').Pairwise
        (fun a b => ftokOf a ≠ some (lowerStr b.2)) := by
      simpa [List.append_assoc] using hShad
    by_cases hK : hasKey (dictInsert (lowerStr n) i m) f = true
    · -- the first-name key is already present: it is skipped
      have hKf : (List.lookup f (dictInsert (lowerStr n) i m)).isSome = true := by
        rwa [hasKey] at hK
      have hstep : buildMap ((i, n) :: suf') m
          = buildMap suf' (dictInsert (lowerStr n) i m) := by
        simp only [buildMap, hfT, hK, if_pos]
      have Ia' : ∀ p ∈ pre ++ [(i, n)],
          List.lookup (lowerStr p.2) (dictInsert (lowerStr n) i m) = some p.1 := by
        intro p hp
        rcases List.mem_append.mp hp with hp | hp
        · rw [F1, if_neg (hFullPre p hp)]
          exact Ia p hp
        · have hpe : p = (i, n) := by simpa using hp
          subst hpe
          rw [F1]
          simp
      have Ib' : ∀ k j, earliestBearer (pre ++ [(i, n)]) k = some j →
          List.lookup k (dictInsert (lowerStr n) i m) = some j := by
        intro k j hb
        rw [earliestBearer, find?_append] at hb
        cases hpre : List.find? (fun p => ftokOf p == some k) pre with
        | some p =>
          simp only [hpre] at hb
          have hpj : p.1 = j := by simpa using hb
          have hmem := List.mem_of_find?_eq_some hpre
          have hpk : ftokOf p = some k := by simpa using List.find?_some hpre
          have h0 : List.lookup k m = some j := Ib k j (by rw [earliestBearer, hpre]; simp [hpj])
          have hkn : k ≠ lowerStr n := fun he => hShadPre p hmem (he ▸ hpk)
          rw [F1, if_neg hkn]
          exact h0
        | none =>
          simp only [hpre] at hb
          have hnob : ∀ p ∈ pre, ftokOf p ≠ some k := fun p hp => by
            simpa using List.find?_eq_none.mp hpre p hp
          by_cases hfe : (ftokOf (i, n) == some k) = true
          · have hkf : k = f := by
              have h2 : some f = some k := hf ▸ (beq_iff_eq.mp hfe)
              injection h2 with h'
              exact h'.symm
            have hji : j = i := by
              simp only [List.find?_cons, hfe] at hb
              simp at hb
              omega
            rw [hkf] at hnob
            rw [hkf, hji]
            by_cases hnf : f = lowerStr n
            · rw [F1, if_pos hnf]
            · rw [F1, if_neg hnf]
              have hsome : (List.lookup f m).isSome = true := by
                have h3 := hKf
                rwa [F1, if_neg hnf] at h3
              rcases (Ik f).mp hsome with ⟨p, hp, he⟩ | ⟨p, hp, he⟩
              · have hpf : ftokOf p = some f := by
                  rw [ftokOf, he]
                  exact firstToken_fix (lowerStr n) f hfT
                exact absurd hpf (hnob p hp)
              · exact absurd he (hnob p hp)
          · have hfe2 : (ftokOf (i, n) == some k) = false := by
              simpa using hfe
            simp [List.find?_cons, hfe2] at hb
      have Ik' : ∀ k, (List.lookup k (dictInsert (lowerStr n) i m)).isSome = true ↔
          ((∃ p ∈ pre ++ [(i, n)], lowerStr p.2 = k)
            ∨ (∃ p ∈ pre ++ [(i, n)], ftokOf p = some k)) := by
        intro k
        constructor
        · intro h
          by_cases hkn : k = lowerStr n
          · exact Or.inl ⟨(i, n), by simp, hkn.symm⟩
          · rw [F1, if_neg hkn] at h
            rcases (Ik k).mp h with ⟨p, hp, he⟩ | ⟨p, hp, he⟩
            · exact Or.inl ⟨p, List.mem_append_left _ hp, he⟩
            · exact Or.inr ⟨p, List.mem_append_left _ hp, he⟩
        · intro h
          rcases h with ⟨p, hp, he⟩ | ⟨p, hp, he⟩ <;>
            rcases List.mem_append.mp hp with hp' | hp'
          · rw [F1]
            by_cases hkn : k = lowerStr n
            · simp [hkn]
            · rw [if_neg hkn]
              exact (Ik k).mpr (Or.inl ⟨p, hp', he⟩)
          · have hpe : p = (i, n) := by simpa using hp'
            subst hpe
            have : k = lowerStr n := he.symm
            rw [F1, if_pos this]
            rfl
          · rw [F1]
            by_cases hkn : k = lowerStr n
            · simp [hkn]
            · rw [if_neg hkn]
              exact (Ik k).mpr (Or.inr ⟨p, hp', he⟩)
          · have hpe : p = (i, n) := by simpa using hp'
            subst hpe
            have hkf : k = f := by
              have h2 : some f = some k := hf ▸ he
              injection h2 with h'
              exact h'.symm
            rw [hkf]
            exact hKf
      obtain ⟨m', hbuild, hIa, hIb⟩ := ih (pre ++ [(i, n)]) (dictInsert (lowerStr n) i m)
        hTok' hFull' hShad' Ia' Ib' Ik'
      refine ⟨m', by rw [hstep]; exact hbuild, ?_, ?_⟩
      · intro p hp
        exact hIa p (by simpa [List.append_assoc] using hp)
      · intro k j hb
        exact hIb k j (by simpa [List.append_assoc] using hb)
    · -- the first-name key is fresh: it is inserted
      have hKf : (List.lookup f (dictInsert (lowerStr n) i m)).isSome = false := by
        rw [hasKey] at hK
        exact Bool.eq_false_iff.mpr hK
      have hstep : buildMap ((i, n) :: suf') m
          = buildMap suf' (dictInsert f i (dictInsert (lowerStr n) i m)) := by
        simp only [buildMap, hfT, hK, if_false, Bool.false_eq_true]
      have F2 : ∀ k', List.lookup k' (dictInsert f i (dictInsert (lowerStr n) i m))
          = if k' = f then some i else List.lookup k' (dictInsert (lowerStr n) i m) :=
        fun k' => lookup_dictInsert _ _ _ _
      have Ia' : ∀ p ∈ pre ++ [(i, n)],
          List.lookup (lowerStr p.2) (dictInsert f i (dictInsert (lowerStr n) i m))
            = some p.1 := by
        intro p hp
        rcases List.mem_append.mp hp with hp | hp
        · have h1 : List.lookup (lowerStr p.2) (dictInsert (lowerStr n) i m) = some p.1 := by
            rw [F1, if_neg (hFullPre p hp)]
            exact Ia p hp
          have hff : lowerStr p.2 ≠ f := by
            intro he
            rw [he] at h1
            rw [h1] at hKf
            simp at hKf
          rw [F2, if_neg hff]
          exact h1
        · have hpe : p = (i, n) := by simpa using hp
          subst hpe
          by_cases hnf : lowerStr n = f
          · rw [F2, if_pos hnf]
          · rw [F2, if_neg hnf, F1, if_pos rfl]
      have Ib' : ∀ k j, earliestBearer (pre ++ [(i, n)]) k = some j →
          List.lookup k (dictInsert f i (dictInsert (lowerStr n) i m)) = some j := by
        intro k j hb
        rw [earliestBearer, find?_append] at hb
        cases hpre : List.find? (fun p => ftokOf p == some k) pre with
        | some p =>
          simp only [hpre] at hb
          have hpj : p.1 = j := by simpa using hb
          have hmem := List.mem_of_find?_eq_some hpre
          have hpk : ftokOf p = some k := by simpa using List.find?_some hpre
          have h0 : List.lookup k m = some j := Ib k j (by rw [earliestBearer, hpre]; simp [hpj])
          have hkn : k ≠ lowerStr n := fun he => hShadPre p hmem (he ▸ hpk)
          have h1 : List.lookup k (dictInsert (lowerStr n) i m) = some j := by
            rw [F1, if_neg hkn]
            exact h0
          have hkf : k ≠ f := by
            intro he
            rw [he] at h1
            rw [h1] at hKf
            simp at hKf
          rw [F2, if_neg hkf]
          exact h1
        | none =>
          simp only [hpre] at hb
          by_cases hfe : (ftokOf (i, n) == some k) = true
          · have hkf : k = f := by
              have h2 : some f = some k := hf ▸ (beq_iff_eq.mp hfe)
              injection h2 with h'
              exact h'.symm
            have hji : j = i := by
              simp only [List.find?_cons, hfe] at hb
              simp at hb
              omega
            rw [hkf, hji, F2, if_pos rfl]
          · have hfe2 : (ftokOf (i, n) == some k) = false := by
              simpa using hfe
            simp [List.find?_cons, hfe2] at hb
      have Ik' : ∀ k,
          (List.lookup k (dictInsert f i (dictInsert (lowerStr n) i m))).isSome = true ↔
          ((∃ p ∈ pre ++ [(i, n)], lowerStr p.2 = k)
            ∨ (∃ p ∈ pre ++ [(i, n)], ftokOf p = some k)) := by
        intro k
        constructor
        · intro h
          by_cases hkf : k = f
          · exact Or.inr ⟨(i, n), by simp, by rw [hf, hkf]⟩
          · rw [F2, if_neg hkf] at h
            by_cases hkn : k = lowerStr n
            · exact Or.inl ⟨(i, n), by simp, hkn.symm⟩
            · rw [F1, if_neg hkn] at h
              rcases (Ik k).mp h with ⟨p, hp, he⟩ | ⟨p, hp, he⟩
              · exact Or.inl ⟨p, List.mem_append_left _ hp, he⟩
              · exact Or.inr ⟨p, List.mem_append_left _ hp, he⟩
        · intro h
          by_cases hkf : k = f
          · rw [F2, if_pos hkf]
            rfl
          · rw [F2, if_neg hkf]
            by_cases hkn : k = lowerStr n
            · rw [F1, if_pos hkn]
              rfl
            · rw [F1, if_neg hkn]
              rcases h with ⟨p, hp, he⟩ | ⟨p, hp, he⟩ <;>
                rcases List.mem_append.mp hp with hp' | hp'
              · exact (Ik k).mpr (Or.inl ⟨p, hp', he⟩)
              · have hpe : p = (i, n) := by simpa using hp'
                subst hpe
                exact absurd he.symm hkn
              · exact (Ik k).mpr (Or.inr ⟨p, hp', he⟩)
              · have hpe : p = (i, n) := by simpa using hp'
                subst hpe
                have : k = f := by
                  have h2 : some f = some k := hf ▸ he
                  injection h2 with h'
                  exact h'.symm
                exact absurd this hkf
      obtain ⟨m', hbuild, hIa, hIb⟩ := ih (pre ++ [(i, n)])
        (dictInsert f i (dictInsert (lowerStr n) i m)) hTok' hFull' hShad' Ia' Ib' Ik'
      refine ⟨m', by rw [hstep]; exact hbuild, ?_, ?_⟩
      · intro p hp
        exact hIa p (by simpa [List.append_assoc] using hp)
      · intro k j hb
        exact hIb k j (by simpa [List.append_assoc] using hb)

theorem resolve_matches_spec (name : Option Value) (em : ExpertMap)
    (h : ∀ v, name = some v → pyFalsy v = false →
      (firstToken (lowerStr (trimStr (pyStr v)))).isSome = true
        ∨ hasKey em (lowerStr (trimStr (pyStr v))) = true) :
    resolve_expert_name name em = .ok (specResolve name em) := by
  unfold resolve_expert_name specResolve
  cases hna : pd_isna name with
  | true => simp
  | false =>
    cases name with
    | none => simp [pd_isna] at hna
    | some v =>
      simp only [Bool.false_eq_true, if_false]
      cases hf : pyFalsy v with
      | true => simp
      | false =>
        simp only [Bool.false_eq_true, if_false]
        cases hl : em.lookup (lowerStr (trimStr (pyStr v))) with
        | some i => simp [hl]
        | none =>
          rcases h v rfl hf with h' | h'
          · cases hft : firstToken (lowerStr (trimStr (pyStr v))) with
            | none => rw [hft] at h'; simp at h'
            | some fn =>
              simp only [hl, hft, Option.some_bind]
              cases hq : List.lookup fn em with
              | some i => simp [hq]
              | none =>
                cases ha : aliases.lookup (lowerStr (trimStr (pyStr v))) with
                | none => simp [hq, ha]
                | some full => cases hb : List.lookup full em <;> simp [hq, ha, hb]
          · rw [hasKey, hl] at h'
            simp at h'

/-! ### Claims -/

/-- Claim C1 (counterexample): on the one-space name and a table without
an empty-string key, the code does not fall through to "no identifier" as
the five-step specification says: `name_str.split()[0]` raises
`IndexError` instead, so `resolve_expert_name` differs from the specified
procedure at this input. -/
theorem c1_resolution_order_counterexample :
    resolve_expert_name (some (Value.vstr " ")) [("x", 1)]
        ≠ .ok (specResolve (some (Value.vstr " ")) [("x", 1)]) ∧
      resolve_expert_name (some (Value.vstr " ")) [("x", 1)]
        = .error "IndexError: list index out of range" := by
  refine ⟨by decide, by decide⟩

/-- Claim C1 (amended): for every name value that is absent or empty, or
whose trimmed lowercased form has a first whitespace-delimited token or
is itself a key of the table, `resolve_expert_name` follows exactly the
claimed order — absent/empty gives no id, then full-key match, then
first-token match, then alias-target match, then no id (`specResolve`
spells out those five steps).  A nonempty all-whitespace value whose
empty normalization is not a key instead raises `IndexError` at step 3. -/
theorem c1_resolution_order (name : Option Value) (em : ExpertMap)
    (h : ∀ v, name = some v → pyFalsy v = false →
      (firstToken (lowerStr (trimStr (pyStr v)))).isSome = true
        ∨ hasKey em (lowerStr (trimStr (pyStr v))) = true) :
    resolve_expert_name name em = .ok (specResolve name em) :=
  resolve_matches_spec name em h

/-- Claim C1 (witness): the resolution order at the uppercase full name
of a rostered expert. -/
theorem c1_resolution_order_witness :
    resolve_expert_name (some (Value.vstr "JERRY SONG")) [("jerry song", 2), ("jerry", 2)]
      = .ok (specResolve (some (Value.vstr "JERRY SONG")) [("jerry song", 2), ("jerry", 2)]) :=
  c1_resolution_order (some (Value.vstr "JERRY SONG")) [("jerry song", 2), ("jerry", 2)]
    (fun v hv _ => by cases hv; exact Or.inl (by decide))

/-- Claim C4 (counterexample): the whitespace-only name `"   "` is
neither absent nor empty in Python's sense, normalizes to the empty
string, and makes `resolve_expert_name` raise `IndexError` at
`split()[0]`; a row carrying it in its `SME` column is therefore skipped
with an error rather than imported with a null assignment. -/
theorem c4_no_raise_counterexample :
    resolve_expert_name (some (Value.vstr "   ")) []
        = .error "IndexError: list index out of range" ∧
      (import_pe_problems [] [Row.ofList [("ID", Value.vstr "X"), ("SME", Value.vstr "   ")]]
          (fun _ => none) 0).imported = 0 ∧
      (import_pe_problems [] [Row.ofList [("ID", Value.vstr "X"), ("SME", Value.vstr "   ")]]
          (fun _ => none) 0).skipped = 1 := by
  refine ⟨by decide, by decide, by decide⟩

/-- Claim C4 (amended): `resolve_expert_name` returns without raising for
every name value that is absent, empty, or whose trimmed lowercased form
has a first token or is a table key (a nonempty all-whitespace value
whose empty normalization is not a key raises `IndexError`); and an
unresolved name is recorded as a null role assignment while the row is
still counted as imported — a row whose `SME` resolves to no id is
persisted with a null `sme_id`, not skipped. -/
theorem c4_unresolved_name_is_null_not_skip :
    (∀ (name : Option Value) (em : ExpertMap),
      (∀ v, name = some v → pyFalsy v = false →
        (firstToken (lowerStr (trimStr (pyStr v)))).isSome = true
          ∨ hasKey em (lowerStr (trimStr (pyStr v))) = true) →
      ∃ r, resolve_expert_name name em = .ok r) ∧
    (∀ (em : ExpertMap) (s : String) (db : DB) (t : Nat),
      resolve_expert_name (some (Value.vstr s)) em = .ok none →
      (import_pe_problems em [Row.ofList [("ID", Value.vstr "X"), ("SME", Value.vstr s)]]
          db t).imported = 1 ∧
        (import_pe_problems em [Row.ofList [("ID", Value.vstr "X"), ("SME", Value.vstr s)]]
          db t).skipped = 0 ∧
        (import_pe_problems em [Row.ofList [("ID", Value.vstr "X"), ("SME", Value.vstr s)]]
          db t).errors = [] ∧
        ((import_pe_problems em [Row.ofList [("ID", Value.vstr "X"), ("SME", Value.vstr s)]]
          db t).db ("X", "PE")).map (fun r => r.sme_id) = some none) := by
  constructor
  · intro name em h
    exact ⟨specResolve name em, resolve_matches_spec name em h⟩
  · intro em s db t h
    have hr0 : resolve_expert_name (none : Option Value) em = .ok none := by
      simp [resolve_expert_name, pd_isna]
    have hout : processRowPE em (Row.ofList [("ID", Value.vstr "X"), ("SME", Value.vstr s)])
        = .success { problem_id := "X", environment := "PE", spec_number := none,
                     status := none, sme_id := none, reviewer_id := none,
                     final_reviewer_id := none, engineer_id := none, week := none,
                     separate_environment_init := false, problem_doc := none,
                     ground_truth := none, spec_folder := none, spec_doc := none,
                     spec_data_folder := none, docker_container := none, pr_link := none,
                     blocker_reason := none, sonnet_pass_rate := none,
                     opus_pass_rate := none, explainer_video := some none } := by
      simp [processRowPE, rowIdx, peBody, Row.ofList, List.lookup, h, hr0,
        optIntField, optStrField, boolField, pd_notnaV, pyStr]
    refine ⟨?_, ?_, ?_, ?_⟩ <;>
      simp [import_pe_problems, runImport, hout, initState, upsert, applyRec]

/-- Claim C4 (witness): the unknown name `Jerome` resolves without raising,
and a row whose `SME` is the unresolvable `zzz unknown` is imported with a
null `sme_id`. -/
theorem c4_unresolved_name_is_null_not_skip_witness :
    (∃ r, resolve_expert_name (some (Value.vstr "Jerome")) [("jerry song", 1)] = .ok r) ∧
      ((import_pe_problems [] [Row.ofList [("ID", Value.vstr "X"),
            ("SME", Value.vstr "zzz unknown")]] (fun _ => none) 0).imported = 1 ∧
        (import_pe_problems [] [Row.ofList [("ID", Value.vstr "X"),
            ("SME", Value.vstr "zzz unknown")]] (fun _ => none) 0).skipped = 0 ∧
        (import_pe_problems [] [Row.ofList [("ID", Value.vstr "X"),
            ("SME", Value.vstr "zzz unknown")]] (fun _ => none) 0).errors = [] ∧
        ((import_pe_problems [] [Row.ofList [("ID", Value.vstr "X"),
            ("SME", Value.vstr "zzz unknown")]] (fun _ => none) 0).db ("X", "PE")).map
            (fun r => r.sme_id) = some none) :=
  ⟨c4_unresolved_name_is_null_not_skip.1 (some (Value.vstr "Jerome")) [("jerry song", 1)]
      (fun v hv _ => by cases hv; exact Or.inl (by decide)),
    c4_unresolved_name_is_null_not_skip.2 [] "zzz unknown" (fun _ => none) 0 (by decide)⟩

/-- Claim C8: with the roster `[(1, "Robert Alward"), (2, "Jerry Song")]`
and the PE sheet row `{ID: "P-100", SME: "rob", Spec #: 5, Status: "Done"}`,
the PE importer persists the record `problem_id = "P-100"`,
`environment = "PE"`, `sme_id = 1` (through the `rob` alias),
`spec_number = 5`, `status = "Done"`, `source = "legacy_sheets"` (with
every unmapped column null/false and the creation time stamped). -/
theorem c8_end_to_end_scenario :
    get_expert_id_map [(1, "Robert Alward"), (2, "Jerry Song")]
        = .ok [("robert alward", 1), ("robert", 1), ("jerry song", 2), ("jerry", 2)] ∧
      (import_pe_problems [("robert alward", 1), ("robert", 1), ("jerry song", 2), ("jerry", 2)]
          [Row.ofList [("ID", Value.vstr "P-100"), ("SME", Value.vstr "rob"),
            ("Spec #", Value.vint 5), ("Status", Value.vstr "Done")]]
          (fun _ => none) 0).db ("P-100", "PE")
        = some { problem_id := "P-100", environment := "PE", spec_number := some 5,
                 status := some "Done", sme_id := some 1, reviewer_id := none,
                 final_reviewer_id := none, engineer_id := none, week := none,
                 separate_environment_init := false, problem_doc := none, ground_truth := none,
                 spec_folder := none, spec_doc := none, spec_data_folder := none,
                 docker_container := none, pr_link := none, blocker_reason := none,
                 sonnet_pass_rate := none, opus_pass_rate := none, explainer_video := none,
                 source := "legacy_sheets", created_at := 0, updated_at := none } := by
  constructor
  · decide
  · decide

/-- Claim C6 (counterexample): with Jack Smith registered before Jack
Barnett, the first-name key `jack` is taken by Jack Smith's id 2, so the
name `jack` resolves to 2 and not to Jack Barnett's id 1 — the alias
entry `jack → jack barnett` never fires because the direct lookup
succeeds first. -/
theorem c6_alias_counterexample :
    get_expert_id_map [(2, "Jack Smith"), (1, "Jack Barnett")]
        = .ok [("jack smith", 2), ("jack", 2), ("jack barnett", 1)] ∧
      resolve_expert_name (some (Value.vstr "jack"))
          [("jack smith", 2), ("jack", 2), ("jack barnett", 1)] = .ok (some 2) ∧
      resolve_expert_name (some (Value.vstr "jack"))
          [("jack smith", 2), ("jack", 2), ("jack barnett", 1)] ≠ .ok (some 1) := by
  refine ⟨by decide, by decide, by decide⟩

/-- Claim C6 (amended): in a roster containing Jack Barnett and Jack
Smith, resolving `jack` returns the identifier of whichever of the two
was registered first — the first-name entry of the lookup table wins and
shadows the static alias, which applies only when the direct and
first-name lookups both fail. -/
theorem c6_first_registered_jack_wins :
    (get_expert_id_map [(1, "Jack Barnett"), (2, "Jack Smith")]
        = .ok [("jack barnett", 1), ("jack", 1), ("jack smith", 2)] ∧
      resolve_expert_name (some (Value.vstr "jack"))
          [("jack barnett", 1), ("jack", 1), ("jack smith", 2)] = .ok (some 1)) ∧
    (get_expert_id_map [(2, "Jack Smith"), (1, "Jack Barnett")]
        = .ok [("jack smith", 2), ("jack", 2), ("jack barnett", 1)] ∧
      resolve_expert_name (some (Value.vstr "jack"))
          [("jack smith", 2), ("jack", 2), ("jack barnett", 1)] = .ok (some 2)) := by
  refine ⟨⟨by decide, by decide⟩, ⟨by decide, by decide⟩⟩

/-- Claim C7 (counterexample): a row from a sheet that has no `ID` column
at all is not silently skipped: `row['ID']` raises `KeyError`, which the
per-row handler records in the error list (with the row index) while
counting the row as skipped — contradicting that nothing is appended to
the error list for an absent identifying column. -/
theorem c7_absent_id_column_counterexample :
    (import_pe_problems [] [Row.ofList []] (fun _ => none) 0).errors = ["Row 0: KeyError: ID"] ∧
      (import_pe_problems [] [Row.ofList []] (fun _ => none) 0).skipped = 1 ∧
      (import_ib_problems [] [Row.ofList []] (fun _ => none) 0).errors = ["Row 0: KeyError: ID"] := by
  refine ⟨by decide, by decide, by decide⟩

/-- Claim C7 (amended): a source row whose `ID` cell is a missing value
(`NaN`) or the empty string is skipped silently by both importers: the
skipped counter is incremented, nothing is persisted, nothing is appended
to the error list, and the loop continues with the next row.  (If the
`ID` column is absent from the sheet entirely, the lookup instead raises
`KeyError` and the row is recorded as an error.) -/
theorem c7_blank_id_skips_silently (em : ExpertMap) (t : Nat) (row : Row) (rest : List Row)
    (st : ImportState)
    (h : row "ID" = some Value.nan ∨ row "ID" = some (Value.vstr "")) :
    runImport (processRowPE em) t (row :: rest) st
        = runImport (processRowPE em) t rest
            { st with skipped := st.skipped + 1, idx := st.idx + 1 } ∧
      runImport (processRowIB em) t (row :: rest) st
        = runImport (processRowIB em) t rest
            { st with skipped := st.skipped + 1, idx := st.idx + 1 } := by
  have hpe : processRowPE em row = .skipBlank := by
    rcases h with h | h <;> simp [processRowPE, rowIdx, h, pd_notnaV, pyStr]
  have hib : processRowIB em row = .skipBlank := by
    rcases h with h | h <;> simp [processRowIB, rowIdx, h, pd_notnaV, pyStr]
  exact ⟨by simp [runImport, hpe], by simp [runImport, hib]⟩

/-- Claim C7 (witness): the amended skip behavior at a concrete row whose
`ID` cell is `NaN`. -/
theorem c7_blank_id_skips_silently_witness :
    runImport (processRowPE []) 0 [Row.ofList [("ID", Value.nan)]] (initState (fun _ => none))
        = runImport (processRowPE []) 0 []
            { initState (fun _ => none) with skipped := 0 + 1, idx := 0 + 1 } ∧
      runImport (processRowIB []) 0 [Row.ofList [("ID", Value.nan)]] (initState (fun _ => none))
        = runImport (processRowIB []) 0 []
            { initState (fun _ => none) with skipped := 0 + 1, idx := 0 + 1 } :=
  c7_blank_id_skips_silently [] 0 (Row.ofList [("ID", Value.nan)]) [] (initState (fun _ => none))
    (Or.inl rfl)

/-- Claim C3: a row on which the loop body raises — coercion or
persistence failure — is caught inside the per-row loop of either
importer: the error list gains exactly one entry holding that row's index
and the message, the skipped counter is incremented, the table is
untouched by that row, and the run continues with the remaining rows. -/
theorem c3_row_failure_is_caught (em : ExpertMap) (t : Nat) (row row2 : Row)
    (rest rest2 : List Row) (st st2 : ImportState) (msg msg2 : String)
    (hpe : processRowPE em row = .rowError msg)
    (hib : processRowIB em row2 = .rowError msg2) :
    runImport (processRowPE em) t (row :: rest) st
        = runImport (processRowPE em) t rest
            { st with skipped := st.skipped + 1,
                      errors := st.errors ++ [errEntry st.idx msg], idx := st.idx + 1 } ∧
      runImport (processRowIB em) t (row2 :: rest2) st2
        = runImport (processRowIB em) t rest2
            { st2 with skipped := st2.skipped + 1,
                       errors := st2.errors ++ [errEntry st2.idx msg2], idx := st2.idx + 1 } :=
  ⟨by simp [runImport, hpe], by simp [runImport, hib]⟩

/-- Claim C3 (witness): concrete single-row batches whose `Spec #`
(resp. `Spec`) cell holds the non-numeric string and whose coercion
failure is caught, recorded with row index 0, and counted as skipped. -/
theorem c3_row_failure_is_caught_witness :
    runImport (processRowPE []) 0
        [Row.ofList [("ID", Value.vstr "P-1"), ("Spec #", Value.vstr "abc")]]
        (initState (fun _ => none))
      = runImport (processRowPE []) 0 []
          { initState (fun _ => none) with
            skipped := 0 + 1,
            errors := [] ++ [errEntry 0 "ValueError: invalid literal for int() with base 10: abc"],
            idx := 0 + 1 } ∧
    runImport (processRowIB []) 0
        [Row.ofList [("ID", Value.vstr "P-2"), ("Spec", Value.vstr "xyz")]]
        (initState (fun _ => none))
      = runImport (processRowIB []) 0 []
          { initState (fun _ => none) with
            skipped := 0 + 1,
            errors := [] ++ [errEntry 0 "ValueError: invalid literal for int() with base 10: xyz"],
            idx := 0 + 1 } :=
  c3_row_failure_is_caught [] 0
    (Row.ofList [("ID", Value.vstr "P-1"), ("Spec #", Value.vstr "abc")])
    (Row.ofList [("ID", Value.vstr "P-2"), ("Spec", Value.vstr "xyz")])
    [] [] (initState (fun _ => none)) (initState (fun _ => none))
    "ValueError: invalid literal for int() with base 10: abc"
    "ValueError: invalid literal for int() with base 10: xyz"
    (by decide) (by decide)

/-- Claim C10: in each importer run every row bumps exactly one of the
two counters, so `imported + skipped` equals the number of rows read, and
the error list never outgrows the skipped count. -/
theorem c10_counter_invariant (em : ExpertMap) (rows : List Row) (db : DB) (t : Nat) :
    ((import_pe_problems em rows db t).imported + (import_pe_problems em rows db t).skipped
          = rows.length ∧
        (import_pe_problems em rows db t).errors.length
          ≤ (import_pe_problems em rows db t).skipped) ∧
      (import_ib_problems em rows db t).imported + (import_ib_problems em rows db t).skipped
          = rows.length ∧
        (import_ib_problems em rows db t).errors.length
          ≤ (import_ib_problems em rows db t).skipped := by
  have hpe := run_counts (processRowPE em) t rows (initState db)
  have hib := run_counts (processRowIB em) t rows (initState db)
  simp only [import_pe_problems, import_ib_problems, initState, List.length_nil] at hpe hib ⊢
  exact ⟨⟨by omega, by omega⟩, ⟨by omega, by omega⟩⟩

/-- Claim C2: re-running an importer on the identical source rows over
the state left by the first run changes nothing observable at any
`(problem_id, environment)` key except the update timestamp: stripped of
`updated_at`, every stored record (and hence the key set) is identical
after the second run, the creation time is kept, and `source` is
re-stamped to the same literal `legacy_sheets`. -/
theorem c2_reimport_is_idempotent (em : ExpertMap) (rows : List Row) (db0 : DB)
    (t1 t2 : Nat) (k : String × String) :
    Option.map stripUpd
        ((import_pe_problems em rows ((import_pe_problems em rows db0 t1).db) t2).db k)
        = Option.map stripUpd ((import_pe_problems em rows db0 t1).db k) ∧
      Option.map stripUpd
        ((import_ib_problems em rows ((import_ib_problems em rows db0 t1).db) t2).db k)
        = Option.map stripUpd ((import_ib_problems em rows db0 t1).db k) := by
  constructor <;>
  · simp only [import_pe_problems, import_ib_problems, runImport_db_at, initState]
    simp only [foldAt_eq_foldPs]
    exact foldPs_idem t1 t2 _ _

theorem processRow_reviewer2_independent (em : ExpertMap) (r1 r2 : Row)
    (hcols : ∀ c, c ≠ "Reviewer 2" → r1 c = r2 c)
    (h1 : ∃ v1, resolve_expert_name (r1 "Reviewer 2") em = .ok v1)
    (h2 : ∃ v2, resolve_expert_name (r2 "Reviewer 2") em = .ok v2) :
    processRowPE em r1 = processRowPE em r2 ∧ processRowIB em r1 = processRowIB em r2 := by
  obtain ⟨v1, hv1⟩ := h1
  obtain ⟨v2, hv2⟩ := h2
  have hID := hcols "ID" (by decide)
  have hSME := hcols "SME" (by decide)
  have hR1 := hcols "Reviewer 1" (by decide)
  have hEng := hcols "Engineer / Submitter" (by decide)
  have hFin := hcols "Final Reviewer" (by decide)
  have hSpecPE := hcols "Spec #" (by decide)
  have hSpecIB := hcols "Spec" (by decide)
  have hWeek := hcols "Week" (by decide)
  have hStatus := hcols "Status" (by decide)
  have hSep := hcols "Separate Environment Init" (by decide)
  have hPDoc := hcols "Problem Doc" (by decide)
  have hGTPE := hcols "Problem Ground Truth" (by decide)
  have hGTIB := hcols "Ground Truth" (by decide)
  have hSF := hcols "Spec Folder" (by decide)
  have hSD := hcols "Spec Doc" (by decide)
  have hSDF := hcols "Spec Data Folder" (by decide)
  have hDC := hcols "Docker Container" (by decide)
  have hPR := hcols "PR Link" (by decide)
  have hBR := hcols "Blocker Reason" (by decide)
  have hSon := hcols "Sonnet 4.5  Pass @ 10" (by decide)
  have hOp := hcols "Opus 4.1 Pass @ 10" (by decide)
  have hEV := hcols "Explainer Video" (by decide)
  constructor
  · simp only [processRowPE, rowIdx, peBody, optIntField, optStrField, boolField,
      hID, hSME, hR1, hEng, hFin, hSpecPE, hWeek,
      hStatus, hSep, hPDoc, hGTPE, hSF, hSD, hSDF, hDC, hPR, hBR, hSon, hOp, hEV, hv1, hv2]
  · simp only [processRowIB, rowIdx, ibBody, optIntField, optStrField, boolField,
      hID, hSME, hR1, hEng, hFin, hSpecIB, hWeek,
      hStatus, hSep, hPDoc, hGTIB, hSF, hSD, hSDF, hDC, hPR, hBR, hSon, hOp, hv1, hv2]

/-- Claim C9 (counterexample): two single-row batches that differ only in
the `Reviewer 2` cell produce different outcomes: with `Reviewer 2` the
whitespace string, resolving it raises `IndexError`, the row is skipped
and an error recorded; with the cell absent the row is imported cleanly —
so the second-reviewer value is observable in counts and errors even
though `reviewer2_id` is never persisted. -/
theorem c9_reviewer2_counterexample :
    (Row.ofList [("ID", Value.vstr "P1"), ("Reviewer 2", Value.vstr " ")]) "ID"
        = (Row.ofList [("ID", Value.vstr "P1")]) "ID" ∧
      (Row.ofList [("ID", Value.vstr "P1"), ("Reviewer 2", Value.vstr " ")]) "Reviewer 2"
        = some (Value.vstr " ") ∧
      (Row.ofList [("ID", Value.vstr "P1")]) "Reviewer 2" = none ∧
      (import_pe_problems [] [Row.ofList [("ID", Value.vstr "P1"), ("Reviewer 2", Value.vstr " ")]]
          (fun _ => none) 0).imported = 0 ∧
      (import_pe_problems [] [Row.ofList [("ID", Value.vstr "P1"), ("Reviewer 2", Value.vstr " ")]]
          (fun _ => none) 0).errors = ["Row 0: IndexError: list index out of range"] ∧
      (import_pe_problems [] [Row.ofList [("ID", Value.vstr "P1")]] (fun _ => none) 0).imported = 1 ∧
      (import_pe_problems [] [Row.ofList [("ID", Value.vstr "P1")]] (fun _ => none) 0).errors = [] := by
  refine ⟨by decide, by decide, by decide, by decide, by decide, by decide, by decide⟩

/-- Claim C9 (amended): as long as resolving the `Reviewer 2` cell does
not raise (it is absent, empty, or normalizes to a tokenized string), the
computed `reviewer2_id` is dead: pairwise replacing the `Reviewer 2`
values of the source rows leaves each importer's entire outcome — table,
counters and error list — unchanged. -/
theorem c9_reviewer2_not_persisted (em : ExpertMap) (t : Nat) (st : ImportState)
    (rows1 rows2 : List Row)
    (h : List.Forall₂ (fun r1 r2 =>
      (∀ c, c ≠ "Reviewer 2" → r1 c = r2 c)
        ∧ (∃ v1, resolve_expert_name (r1 "Reviewer 2") em = .ok v1)
        ∧ (∃ v2, resolve_expert_name (r2 "Reviewer 2") em = .ok v2)) rows1 rows2) :
    runImport (processRowPE em) t rows1 st = runImport (processRowPE em) t rows2 st ∧
      runImport (processRowIB em) t rows1 st = runImport (processRowIB em) t rows2 st := by
  induction h generalizing st with
  | nil => exact ⟨rfl, rfl⟩
  | @cons a b l1 l2 hab htail ih =>
    obtain ⟨hcols, h1, h2⟩ := hab
    obtain ⟨hpe, hib⟩ := processRow_reviewer2_independent em a b hcols h1 h2
    constructor
    · simp only [runImport, hpe]
      cases processRowPE em b <;> exact (ih _).1
    · simp only [runImport, hib]
      cases processRowIB em b <;> exact (ih _).2

/-- Claim C9 (witness): concrete single-row runs whose rows differ only
in the (resolvable) `Reviewer 2` value produce identical outcomes. -/
theorem c9_reviewer2_not_persisted_witness :
    runImport (processRowPE []) 0
        [Row.ofList [("ID", Value.vstr "P1"), ("Reviewer 2", Value.vstr "x")]]
        (initState (fun _ => none))
      = runImport (processRowPE []) 0
          [Row.ofList [("ID", Value.vstr "P1"), ("Reviewer 2", Value.vstr "y")]]
          (initState (fun _ => none)) ∧
    runImport (processRowIB []) 0
        [Row.ofList [("ID", Value.vstr "P1"), ("Reviewer 2", Value.vstr "x")]]
        (initState (fun _ => none))
      = runImport (processRowIB []) 0
          [Row.ofList [("ID", Value.vstr "P1"), ("Reviewer 2", Value.vstr "y")]]
          (initState (fun _ => none)) :=
  c9_reviewer2_not_persisted [] 0 (initState (fun _ => none))
    [Row.ofList [("ID", Value.vstr "P1"), ("Reviewer 2", Value.vstr "x")]]
    [Row.ofList [("ID", Value.vstr "P1"), ("Reviewer 2", Value.vstr "y")]]
    (List.Forall₂.cons
      ⟨fun c hc => by
        have hb : (c == "Reviewer 2") = false := beq_eq_false_iff_ne.mpr hc
        simp only [Row.ofList, List.lookup, hb],
        ⟨none, by decide⟩, ⟨none, by decide⟩⟩
      List.Forall₂.nil)

/-- Claim C5 (counterexample): on the roster `[(1, "Ann Smith"), (2, "Ann")]`
the dict-overwrite in `get_expert_id_map` breaks the claimed invariant:
expert 2's full-name registration of the key `ann` overwrites expert 1's
earlier first-token entry, so `ann` maps to 2 even though the earliest
expert whose name bears the first token `ann` is expert 1. -/
theorem c5_first_name_counterexample :
    get_expert_id_map [(1, "Ann Smith"), (2, "Ann")] = .ok [("ann smith", 1), ("ann", 2)] ∧
      earliestBearer [(1, "Ann Smith"), (2, "Ann")] "ann" = some 1 ∧
      List.lookup "ann" [("ann smith", 1), ("ann", 2)] = some 2 := by
  refine ⟨by decide, by decide, by decide⟩

/-- Claim C5 (amended): for every roster in which each name has a first
token, the lowercased full names are pairwise distinct, and no entry's
lowercased full name coincides with the first token of an earlier entry,
the table built by `get_expert_id_map` maps each expert's lowercased full
name to that expert's id, and maps a first-token key to the id of the
earliest-seen expert bearing that first token (first registrant wins,
later collisions silently dropped).  Without the third hypothesis a later
full-name registration can overwrite an earlier first-token entry. -/
theorem c5_lookup_table_invariant (R : List (Nat × String))
    (hTok : ∀ p ∈ R, (ftokOf p).isSome = true)
    (hFull : R.Pairwise (fun a b => lowerStr a.2 ≠ lowerStr b.2))
    (hShad : R.Pairwise (fun a b => ftokOf a ≠ some (lowerStr b.2))) :
    ∃ m, get_expert_id_map R = .ok m
      ∧ (∀ p ∈ R, List.lookup (lowerStr p.2) m = some p.1)
      ∧ (∀ k j, earliestBearer R k = some j → List.lookup k m = some j) := by
  have h := buildMap_invariant R [] []
    (by simpa using hTok) (by simpa using hFull) (by simpa using hShad)
    (fun p hp => absurd hp (List.not_mem_nil p))
    (fun k j hb => by simp [earliestBearer] at hb)
    (fun k => by simp [List.lookup])
  simpa [get_expert_id_map] using h

/-- Claim C5 (witness): the lookup-table invariant holds on the concrete
two-Jack roster, which satisfies all three hypotheses. -/
theorem c5_lookup_table_invariant_witness :
    ∃ m, get_expert_id_map [(1, "Jack Barnett"), (2, "Jack Smith")] = .ok m
      ∧ (∀ p ∈ [(1, "Jack Barnett"), (2, "Jack Smith")],
          List.lookup (lowerStr p.2) m = some p.1)
      ∧ (∀ k j, earliestBearer [(1, "Jack Barnett"), (2, "Jack Smith")] k = some j →
          List.lookup k m = some j) :=
  c5_lookup_table_invariant [(1, "Jack Barnett"), (2, "Jack Smith")]
    (by decide) (by decide) (by decide)

end LegacyImport
